import Mathlib

/-!
Shallow embedding of `src/lit_nlp/client/modules/tcav_module.ts`, the TCAV
panel of the LIT dashboard: its data model, derived option lists, enablement
rule, run workflow and module-visibility gate, together with theorems about
the spec's claims on that code.
-/

/-- `MIN_EXAMPLES_LENGTH` (source line 35): minimum examples needed to train
the linear model. -/
def MIN_EXAMPLES_LENGTH : Nat := 2

/-- `ALL` (source line 36): the sentinel slice name meaning every slice. -/
def ALL : String := "all"

/-- `TCAV_NAME` (source line 37): the fixed interpreter identifier sent with
every interpretation request. -/
def TCAV_NAME : String := "tcav"

/-- One field of a model spec: the field's kind (the LitType class name the
source matches on, e.g. "Gradients", "MulticlassPreds", "Embeddings") and,
for prediction fields, an optional vocabulary. -/
structure LitType where
  kind : String
  vocab : Option (List String) := none
deriving DecidableEq

/-- A spec (TS `Spec`): an ordered association list from field name to
`LitType`. A JS object has unique keys; order is insertion order. -/
abbrev LitSpec := List (String × LitType)

/-- A model's spec (`getModelSpec` result): input and output field specs. -/
structure ModelSpec where
  input : LitSpec := []
  output : LitSpec
deriving DecidableEq

/-- JS property access `spec[k]` on a spec object: the value at the first
(only) field named `k`, or `undefined` (`none`). -/
def specGet (s : LitSpec) (k : String) : Option LitType :=
  match s with
  | [] => none
  | (a, t) :: rest => if a = k then some t else specGet rest k

/-- Modelled from the spec: `findSpecKeys` lives in
`src/lit_nlp/client/lib/utils.ts`, which is not among the staged source
files. Per the spec's derived option lists ("names of model output fields
whose kind is ..."), it returns the names of the fields of the given spec
whose kind matches the requested one, in field order. -/
def findSpecKeys (s : LitSpec) (kind : String) : List String :=
  (s.filter (fun f => f.2.kind == kind)).map (fun f => f.1)

/-- Modelled from the spec: `doesOutputSpecContain` lives in
`src/lit_nlp/client/lib/utils.ts`, which is not among the staged source
files. Per the spec's visibility rule ("the model's capability descriptor
declares at least one ... output"), it tells whether some model of the map
declares an output field of the given kind. -/
def doesOutputSpecContain (models : List (String × ModelSpec)) (kind : String) : Bool :=
  models.any (fun m => !(findSpecKeys m.2.output kind).isEmpty)

/-- The `gradKeys` getter (source lines 72-75). -/
def gradKeys (ms : ModelSpec) : List String :=
  findSpecKeys ms.output "Gradients"

/-- The `predClasses` getter (source lines 77-82):
`this.modelSpec.output[predKeys[0]].vocab!`. When no "MulticlassPreds" field
exists, `predKeys[0]` is `undefined`, `output[undefined]` is `undefined`,
and reading `.vocab` on it throws a TypeError; when the field exists but has
no `vocab`, the non-null assertion still yields `undefined` at runtime. Both
non-list outcomes are `none` here. -/
def predClasses (ms : ModelSpec) : Option (List String) :=
  match findSpecKeys ms.output "MulticlassPreds" with
  | [] => none
  | k :: _ => (specGet ms.output k).bind (fun t => t.vocab)

/-- The predictable-classes list as the spec words it (refinement foil for
`predClasses`): "the vocabulary (ordered list of class labels) of the first
output field whose kind is prediction-with-vocabulary; if none exists,
empty" -- a total function. -/
def predClassesPerSpec (ms : ModelSpec) : List String :=
  match findSpecKeys ms.output "MulticlassPreds" with
  | [] => []
  | k :: _ => ((specGet ms.output k).bind (fun t => t.vocab)).getD []

/-- The first entry `result[0]` of an interpretation response, with the two
fields the source reads: `p_val` and the nested `result.score` (source lines
210-211). -/
structure TCAVResultEntry where
  p_val : Rat
  score : Rat
deriving DecidableEq

/-- An interpretation response payload. Per the spec's external interface
section the result is "an ordered sequence whose first element has fields
{significance, result: {score}}", so the sequence is nonempty: its first
entry plus the remaining entries. -/
abbrev InterpResult := TCAVResultEntry × List TCAVResultEntry

/-- The external collaborators the module reads during a run: the slice
service (`sliceNames` and `getSliceByName`, with `none` for a slice name
that no longer resolves) and the interpretation API composed with the
latest-wins helper (`loadLatest`): `response ids cls lyr` is the settled
value of the request whose config is `{concept_set_ids: ids,
class_to_explain: cls, grad_layer: lyr}`, and `none` is the staleness
sentinel (`loadLatest` returned null). The request arguments that are
constant across one run (current input data, model, current dataset, the
method name "tcav") are folded into the environment. -/
structure Env where
  sliceNames : List String
  getSliceByName : String → Option (List String)
  response : List String → String → String → Option InterpResult

/-- The controller's own state (source lines 61-65): the persisted score map
(an association list in JS `Map` insertion order), the three selections and
the loading flag, with the source's initializers as defaults. -/
structure TCAVState where
  scores : List (String × Rat) := []
  selectedSlice : String := ALL
  selectedLayer : String := ""
  selectedClass : String := ""
  isLoading : Bool := false
deriving DecidableEq

/-- The controller state right after construction (the field initializers of
source lines 61-65). -/
def initialState : TCAVState := {}

/-- JS `Map.prototype.set`: replace the value at an existing key in place,
else append the new pair. -/
def mapSet (m : List (String × Rat)) (k : String) (v : Rat) : List (String × Rat) :=
  match m with
  | [] => [(k, v)]
  | (a, b) :: rest => if a = k then (a, v) :: rest else (a, b) :: mapSet rest k v

/-- JS `Map.prototype.get` on the score map. -/
def mapLookup (m : List (String × Rat)) (k : String) : Option Rat :=
  match m with
  | [] => none
  | (a, b) :: rest => if a = k then some b else mapLookup rest k

/-- The candidate slice list, computed identically at source lines 142-144
(`shouldDisable`) and 181-183 (`runTCAV`): all known slices when "all" is
selected, else just the selected one. -/
def candidateSlices (selectedSlice : String) (env : Env) : List String :=
  if selectedSlice = ALL then env.sliceNames else [selectedSlice]

/-- The loop of `shouldDisable` (source lines 145-152): return `true`
(disable) at the first slice whose lookup is null, `false` (enable) at the
first slice with at least `MIN_EXAMPLES_LENGTH` examples, and `true` when
the candidates run out. -/
def shouldDisableLoop (env : Env) : List String → Bool
  | [] => true
  | s :: rest =>
    match env.getSliceByName s with
    | none => true
    | some examples =>
      if MIN_EXAMPLES_LENGTH ≤ examples.length then false
      else shouldDisableLoop env rest

/-- `shouldDisable` (source lines 141-153): whether the Run TCAV button is
disabled. -/
def shouldDisable (selectedSlice : String) (env : Env) : Bool :=
  shouldDisableLoop env (candidateSlices selectedSlice env)

/-- The literal significance threshold the run loop compares `p_val` against
(source line 210 reads `result[0]['p_val'] < 0.5`; the comment above it says
0.05, the code says 0.5). Written `mkRat 1 2` -- the rational one half. -/
def pValThreshold : Rat := mkRat 1 2

/-- The `for` loop of `runTCAV` (source lines 184-215) with the local
working map `scores` accumulated; `none` is the staleness abort of lines
203-206 (the method returns at once). A slice that does not resolve or has
fewer than `MIN_EXAMPLES_LENGTH` examples is skipped (line 186); a result
whose first entry has `p_val` below the threshold is recorded under the
slice's name (lines 210-214), any other result is dropped silently. -/
def runLoop (env : Env) (cls lyr : String) (working : List (String × Rat)) :
    List String → Option (List (String × Rat))
  | [] => some working
  | slice :: rest =>
    match env.getSliceByName slice with
    | none => runLoop env cls lyr working rest
    | some selectedIds =>
      if selectedIds.length < MIN_EXAMPLES_LENGTH then
        runLoop env cls lyr working rest
      else
        match env.response selectedIds cls lyr with
        | none => none
        | some res =>
          if res.1.p_val < pValThreshold then
            runLoop env cls lyr (mapSet working slice res.1.score) rest
          else
            runLoop env cls lyr working rest

/-- The working score map a run ends with (`none` = staleness abort),
starting from the empty map of source line 177. -/
def runTCAVScores (env : Env) (selectedSlice cls lyr : String) :
    Option (List (String × Rat)) :=
  runLoop env cls lyr [] (candidateSlices selectedSlice env)

/-- `runTCAV` (source lines 175-218) as a transformer of the controller
state, observed once the method has settled. `isLoading` is set on entry
(line 176) and cleared on both exits (lines 204 and 216), so it ends false.
On the staleness abort the method returns before `this.scores = scores`
(line 217), so the persisted map is untouched; on normal completion the
persisted map is replaced by the working map in that single assignment. -/
def runTCAV (env : Env) (st : TCAVState) : TCAVState :=
  match runTCAVScores env st.selectedSlice st.selectedClass st.selectedLayer with
  | none => { st with isLoading := false }
  | some w => { st with isLoading := false, scores := w }

/-- The first `if` of `firstUpdated` (source lines 86-88): if no layer is
selected and a gradient key exists, select the first gradient key. -/
def applyLayerDefault (ms : ModelSpec) (st : TCAVState) : TCAVState :=
  if st.selectedLayer = "" ∧ 0 < (gradKeys ms).length then
    { st with selectedLayer := (gradKeys ms).headD "" }
  else st

/-- The second `if` of `firstUpdated` (source lines 90-92):
`this.selectedClass === '' && this.predClasses.length > 0` -- by
short-circuit the `predClasses` getter only runs when the class is unset,
and its TypeError (see `predClasses`) propagates, hence the `Option`
result. -/
def applyClassDefault (ms : ModelSpec) (st : TCAVState) : Option TCAVState :=
  if st.selectedClass = "" then
    match predClasses ms with
    | none => none
    | some vocab =>
      if 0 < vocab.length then some { st with selectedClass := vocab.headD "" }
      else some st
  else some st

/-- `firstUpdated` (source lines 84-93): the layer default then the class
default. -/
def firstUpdated (ms : ModelSpec) (st : TCAVState) : Option TCAVState :=
  applyClassDefault ms (applyLayerDefault ms st)

/-- One render pass (source lines 140-173): `render` builds the template and
reads state but writes none of it, so on the state it is the identity. -/
def renderOnly (st : TCAVState) : TCAVState := st

/-- `n` render passes in sequence. -/
def renderSteps : Nat → TCAVState → TCAVState
  | 0, st => st
  | n + 1, st => renderSteps n (renderOnly st)

/-- Modelled from the spec: the rendering framework's lifecycle (the
lit-element base class is not among the staged source files). Per the spec's
initialization policy ("on first render ...; this is a one-time default, not
re-applied later"), `firstUpdated` runs exactly once, after the first
render, and every later render runs only the pure `render`. -/
def lifecycleAfterRenders (ms : ModelSpec) (st : TCAVState) (n : Nat) :
    Option TCAVState :=
  (firstUpdated ms st).map (renderSteps n)

/-- `shouldDisplayModule` (source lines 220-229). -/
def shouldDisplayModule (modelSpecs : List (String × ModelSpec)) (datasetSpec : LitSpec) :
    Bool :=
  let supportsEmbs := doesOutputSpecContain modelSpecs "Embeddings"
  let supportsGrads := doesOutputSpecContain modelSpecs "Gradients"
  let multiclassPreds := doesOutputSpecContain modelSpecs "MulticlassPreds"
  if supportsGrads && supportsEmbs && multiclassPreds then true else false

/-- The operations that touch the controller's state over its lifetime: the
three selection-change handlers (source lines 115-126), the one-time
first-render initialization (lines 84-93) and the run workflow (lines
175-218). Rendering reads state but never writes it. -/
inductive UIAction where
  | run (env : Env)
  | setSlice (s : String)
  | setLayer (s : String)
  | setClass (s : String)
  | firstRender (ms : ModelSpec)

/-- One operation applied to the controller state (`none` when the
first-render initialization throws, see `firstUpdated`). -/
def stepAction (st : TCAVState) : UIAction → Option TCAVState
  | .run env => some (runTCAV env st)
  | .setSlice s => some { st with selectedSlice := s }
  | .setLayer s => some { st with selectedLayer := s }
  | .setClass s => some { st with selectedClass := s }
  | .firstRender ms => firstUpdated ms st

/-- A sequence of operations applied from a starting state. -/
def runActions : TCAVState → List UIAction → Option TCAVState
  | st, [] => some st
  | st, a :: rest =>
    match stepAction st a with
    | none => none
    | some st' => runActions st' rest

/-- A score-map entry `(s, v)` is justified by a run made with environment
`env`, class `cls` and layer `lyr` over candidate list `cands` when `s` was
a candidate that resolved to at least `MIN_EXAMPLES_LENGTH` examples, its
request settled (non-stale) with a first entry that passed the significance
filter, and `v` is that entry's score. -/
def entryJustified (env : Env) (cls lyr : String) (cands : List String)
    (s : String) (v : Rat) : Prop :=
  s ∈ cands ∧ ∃ ids e tail, env.getSliceByName s = some ids ∧
    MIN_EXAMPLES_LENGTH ≤ ids.length ∧
    env.response ids cls lyr = some (e, tail) ∧
    e.p_val < pValThreshold ∧ v = e.score

/-- The score map `m` is the output of an actual run inside the trace
`acts` executed from `st0`: the trace decomposes around a `.run env` action,
the prefix before it reaches some state `stRun`, that run (with `env` and
the selections of `stRun`, the state it was actually invoked on) completes
with exactly the map `m`, and every entry of `m` is justified by that run's
environment, selections and candidate list. The environment and candidate
list here are the ones of the producing run in the trace, not arbitrary
ones. -/
def mapProducedByRun (st0 : TCAVState) (acts : List UIAction)
    (m : List (String × Rat)) : Prop :=
  ∃ pre env stRun post, acts = pre ++ UIAction.run env :: post ∧
    runActions st0 pre = some stRun ∧
    runTCAVScores env stRun.selectedSlice stRun.selectedClass stRun.selectedLayer =
      some m ∧
    ∀ s v, (s, v) ∈ m →
      entryJustified env stRun.selectedClass stRun.selectedLayer
        (candidateSlices stRun.selectedSlice env) s v

/-! ### Helper lemmas on the score map -/

theorem mapLookup_mapSet_self (m : List (String × Rat)) (k : String) (v : Rat) :
    mapLookup (mapSet m k v) k = some v := by
  induction m with
  | nil => simp [mapSet, mapLookup]
  | cons p rest ih =>
    obtain ⟨a, b⟩ := p
    by_cases h : a = k
    · subst h; simp [mapSet, mapLookup]
    · simp [mapSet, mapLookup, h, ih]

theorem mapLookup_mapSet_ne (m : List (String × Rat)) (k a : String) (v : Rat)
    (h : a ≠ k) : mapLookup (mapSet m k v) a = mapLookup m a := by
  induction m with
  | nil => simp [mapSet, mapLookup, Ne.symm h]
  | cons p rest ih =>
    obtain ⟨x, y⟩ := p
    by_cases hx : x = k
    · subst hx
      simp [mapSet, mapLookup, Ne.symm h]
    · by_cases hxa : x = a <;> simp [mapSet, mapLookup, hx, hxa, h, ih]

theorem mem_mapSet (m : List (String × Rat)) (k s : String) (v x : Rat)
    (h : (s, v) ∈ mapSet m k x) : (s = k ∧ v = x) ∨ (s, v) ∈ m := by
  induction m with
  | nil =>
    simp [mapSet] at h
    exact Or.inl h
  | cons p rest ih =>
    obtain ⟨a, b⟩ := p
    by_cases hak : a = k
    · subst hak
      simp [mapSet] at h
      rcases h with ⟨hs, hv⟩ | hm
      · exact Or.inl ⟨hs, hv⟩
      · exact Or.inr (List.mem_cons_of_mem _ hm)
    · simp [mapSet, hak] at h
      rcases h with ⟨hs, hv⟩ | hm
      · exact Or.inr (List.mem_cons.mpr (Or.inl (by rw [hs, hv])))
      · rcases ih hm with h1 | h2
        · exact Or.inl h1
        · exact Or.inr (List.mem_cons_of_mem _ h2)

theorem mapLookup_eq_none (m : List (String × Rat)) (s : String)
    (h : ∀ v, (s, v) ∉ m) : mapLookup m s = none := by
  induction m with
  | nil => rfl
  | cons p rest ih =>
    obtain ⟨a, b⟩ := p
    by_cases ha : a = s
    · subst ha
      exact absurd (List.mem_cons_self _ _) (h b)
    · simp [mapLookup, ha]
      exact ih (fun v hv => h v (List.mem_cons_of_mem _ hv))

theorem mem_of_mapLookup (m : List (String × Rat)) (s : String) (v : Rat)
    (h : mapLookup m s = some v) : (s, v) ∈ m := by
  induction m with
  | nil => simp [mapLookup] at h
  | cons p rest ih =>
    obtain ⟨a, b⟩ := p
    by_cases ha : a = s
    · subst ha
      simp [mapLookup] at h
      subst h
      exact List.mem_cons_self _ _
    · simp [mapLookup, ha] at h
      exact List.mem_cons_of_mem _ (ih h)

/-! ### Visibility gate (claims about shouldDisplayModule) -/

theorem doesOutputSpecContain_iff (models : List (String × ModelSpec)) (kind : String) :
    doesOutputSpecContain models kind = true ↔
      ∃ m ∈ models, ∃ f ∈ m.2.output, f.2.kind = kind := by
  simp [doesOutputSpecContain, findSpecKeys, List.any_eq_true, List.isEmpty_iff,
    List.map_eq_nil_iff, List.filter_eq_nil_iff]

/-- C8: the module-visibility predicate returns true if and only if the
model capability map declares at least one "Embeddings" output, at least one
"Gradients" output and at least one "MulticlassPreds" output; if any of the
three kinds is absent the panel is excluded. -/
theorem shouldDisplayModule_iff (models : List (String × ModelSpec)) (datasetSpec : LitSpec) :
    shouldDisplayModule models datasetSpec = true ↔
      ((∃ m ∈ models, ∃ f ∈ m.2.output, f.2.kind = "Embeddings") ∧
       (∃ m ∈ models, ∃ f ∈ m.2.output, f.2.kind = "Gradients") ∧
       (∃ m ∈ models, ∃ f ∈ m.2.output, f.2.kind = "MulticlassPreds")) := by
  rw [← doesOutputSpecContain_iff, ← doesOutputSpecContain_iff, ← doesOutputSpecContain_iff]
  unfold shouldDisplayModule
  constructor
  · intro h
    by_cases hg : doesOutputSpecContain models "Gradients" = true <;>
      by_cases he : doesOutputSpecContain models "Embeddings" = true <;>
      by_cases hp : doesOutputSpecContain models "MulticlassPreds" = true <;>
      simp [hg, he, hp] at h ⊢
  · rintro ⟨he, hg, hp⟩
    simp [hg, he, hp]

/-- C10: the module-visibility predicate ignores its dataset-spec argument
entirely; visibility depends only on the models' declared output kinds. -/
theorem shouldDisplayModule_ignores_dataset (models : List (String × ModelSpec))
    (d1 d2 : LitSpec) : shouldDisplayModule models d1 = shouldDisplayModule models d2 := rfl

/-! ### Frame effect of the run workflow -/

/-- C9: the run workflow never modifies the selection state; on every
execution of `runTCAV` (normal completion, staleness abort, or
all-candidates-skipped) the selected slice, layer and class are identical
before and after the run. -/
theorem runTCAV_preserves_selections (env : Env) (st : TCAVState) :
    (runTCAV env st).selectedSlice = st.selectedSlice ∧
    (runTCAV env st).selectedLayer = st.selectedLayer ∧
    (runTCAV env st).selectedClass = st.selectedClass := by
  unfold runTCAV
  cases runTCAVScores env st.selectedSlice st.selectedClass st.selectedLayer <;>
    exact ⟨rfl, rfl, rfl⟩

/-! ### Enablement rule (claim C1) -/

/-- Characterization of the `shouldDisable` loop: it reports enabled exactly
when some candidate resolves with enough examples and every candidate
scanned before it resolved (to a too-small list); a null lookup stops the
scan with the action disabled. -/
theorem shouldDisableLoop_false_iff (env : Env) (l : List String) :
    shouldDisableLoop env l = false ↔
      ∃ pre s post, l = pre ++ s :: post ∧
        (∃ ids, env.getSliceByName s = some ids ∧ MIN_EXAMPLES_LENGTH ≤ ids.length) ∧
        ∀ s' ∈ pre, ∃ ids', env.getSliceByName s' = some ids' ∧
          ids'.length < MIN_EXAMPLES_LENGTH := by
  induction l with
  | nil =>
    constructor
    · intro h
      exact absurd h (by simp [shouldDisableLoop])
    · rintro ⟨pre, s, post, hdec, _, _⟩
      exact absurd hdec.symm (by simp)
  | cons c rest ih =>
    cases hc : env.getSliceByName c with
    | none =>
      constructor
      · intro h
        simp only [shouldDisableLoop, hc] at h
        exact Bool.noConfusion h
      · rintro ⟨pre, s, post, hdec, ⟨ids, hids, hlen⟩, hpre⟩
        cases pre with
        | nil =>
          simp only [List.nil_append] at hdec
          injection hdec with h1 h2
          subst h1
          rw [hc] at hids
          exact Option.noConfusion hids
        | cons p pre' =>
          simp only [List.cons_append] at hdec
          injection hdec with h1 h2
          subst h1
          obtain ⟨ids', hids', _⟩ := hpre c (List.mem_cons_self _ _)
          rw [hc] at hids'
          exact Option.noConfusion hids'
    | some ids =>
      by_cases hlen : MIN_EXAMPLES_LENGTH ≤ ids.length
      · constructor
        · intro _
          exact ⟨[], c, rest, rfl, ⟨ids, hc, hlen⟩, by simp⟩
        · intro _
          simp only [shouldDisableLoop, hc]
          rw [if_pos hlen]
      · have hstep : shouldDisableLoop env (c :: rest) = shouldDisableLoop env rest := by
          simp only [shouldDisableLoop, hc]
          rw [if_neg hlen]
        rw [hstep, ih]
        constructor
        · rintro ⟨pre, s, post, hdec, hq, hpre⟩
          refine ⟨c :: pre, s, post, by rw [hdec, List.cons_append], hq, ?_⟩
          intro s' hs'
          rcases List.mem_cons.mp hs' with h1 | h2
          · subst h1
            exact ⟨ids, hc, Nat.lt_of_not_le hlen⟩
          · exact hpre s' h2
        · rintro ⟨pre, s, post, hdec, ⟨ids0, hids0, hlen0⟩, hpre⟩
          cases pre with
          | nil =>
            simp only [List.nil_append] at hdec
            injection hdec with h1 h2
            subst h1
            rw [hc] at hids0
            injection hids0 with h3
            subst h3
            exact absurd hlen0 hlen
          | cons p pre' =>
            simp only [List.cons_append] at hdec
            injection hdec with h1 h2
            subst h1
            exact ⟨pre', s, post, h2, ⟨ids0, hids0, hlen0⟩,
              fun s' hs' => hpre s' (List.mem_cons_of_mem _ hs')⟩

/-- C1 (amended): the run action is enabled iff, scanning the candidate
slices in order, some candidate resolves to a non-null member list of size
at least `MIN_EXAMPLES_LENGTH` and every candidate before it resolves to a
non-null (too small) list. A candidate that fails to resolve disables the
action on the spot, even when a later candidate qualifies. -/
theorem shouldDisable_false_iff (selectedSlice : String) (env : Env) :
    shouldDisable selectedSlice env = false ↔
      ∃ pre s post, candidateSlices selectedSlice env = pre ++ s :: post ∧
        (∃ ids, env.getSliceByName s = some ids ∧ MIN_EXAMPLES_LENGTH ≤ ids.length) ∧
        ∀ s' ∈ pre, ∃ ids', env.getSliceByName s' = some ids' ∧
          ids'.length < MIN_EXAMPLES_LENGTH :=
  shouldDisableLoop_false_iff env (candidateSlices selectedSlice env)

/-- A slice service where slice "A" no longer resolves while slice "B" holds
two examples. -/
def nullSliceEnv : Env where
  sliceNames := ["A", "B"]
  getSliceByName := fun s => if s = "B" then some ["id1", "id2"] else none
  response := fun _ _ _ => none

/-- C1 counterexample: with "all" selected over slices ["A", "B"], where "A"
no longer resolves and "B" resolves to 2 members, a candidate subset
qualifies (so the claim demands the action enabled), yet `shouldDisable`
returns true: the unresolvable "A" alone forces the action disabled. -/
theorem shouldDisable_null_slice_cex :
    (∃ s ∈ candidateSlices ALL nullSliceEnv, ∃ ids,
      nullSliceEnv.getSliceByName s = some ids ∧ MIN_EXAMPLES_LENGTH ≤ ids.length) ∧
    shouldDisable ALL nullSliceEnv = true := by
  constructor
  · exact ⟨"B", by decide, ["id1", "id2"], by decide, by decide⟩
  · decide

/-! ### Predictable classes (claim C2) -/

/-- A model spec with embedding and gradient outputs but no "MulticlassPreds"
field. -/
def msNoPreds : ModelSpec :=
  { output := [("emb", { kind := "Embeddings" }), ("grad", { kind := "Gradients" })] }

/-- C2 counterexample: on a model spec with no "MulticlassPreds" output the
`predClasses` getter faults (`none`, the TypeError of reading `.vocab` on
`undefined`) instead of yielding the empty list the claim demands. -/
theorem predClasses_no_field_cex :
    predClasses msNoPreds = none ∧ predClassesPerSpec msNoPreds = [] ∧
    predClasses msNoPreds ≠ some (predClassesPerSpec msNoPreds) := by
  refine ⟨by decide, by decide, by decide⟩

theorem findSpecKeys_eq_nil (s : LitSpec) (kind : String)
    (h : ∀ f ∈ s, f.2.kind ≠ kind) : findSpecKeys s kind = [] := by
  unfold findSpecKeys
  rw [List.filter_eq_nil_iff.mpr (fun f hf => by simp [h f hf])]
  rfl

theorem specGet_append_first (pre : LitSpec) (k : String) (t : LitType) (rest : LitSpec)
    (h : ∀ f ∈ pre, f.1 ≠ k) : specGet (pre ++ (k, t) :: rest) k = some t := by
  induction pre with
  | nil => simp [specGet]
  | cons p pre' ih =>
    obtain ⟨a, u⟩ := p
    have ha : a ≠ k := h (a, u) (List.mem_cons_self _ _)
    simp only [List.cons_append, specGet, if_neg ha]
    exact ih (fun f hf => h f (List.mem_cons_of_mem _ hf))

theorem findSpecKeys_append_first (pre : LitSpec) (k : String) (t : LitType)
    (rest : LitSpec) (kind : String)
    (hpre : ∀ f ∈ pre, f.2.kind ≠ kind) (ht : t.kind = kind) :
    ∃ ks, findSpecKeys (pre ++ (k, t) :: rest) kind = k :: ks := by
  refine ⟨(List.filter (fun f => f.2.kind == kind) rest).map (fun f => f.1), ?_⟩
  unfold findSpecKeys
  rw [List.filter_append,
    List.filter_eq_nil_iff.mpr (fun f hf => by simp [hpre f hf]),
    List.nil_append,
    List.filter_cons_of_pos (by simp [ht])]
  rfl

/-- C2 (amended): when the model spec has a first output field of kind
"MulticlassPreds" carrying a vocabulary, `predClasses` is that vocabulary;
when no output field has that kind, the getter faults (`none`) rather than
returning the empty list. -/
theorem predClasses_amended (ms : ModelSpec) :
    ((∀ f ∈ ms.output, f.2.kind ≠ "MulticlassPreds") → predClasses ms = none) ∧
    (∀ pre k t rest v, ms.output = pre ++ (k, t) :: rest →
      (∀ f ∈ pre, f.2.kind ≠ "MulticlassPreds") →
      t.kind = "MulticlassPreds" → t.vocab = some v →
      (∀ f ∈ pre, f.1 ≠ k) →
      predClasses ms = some v) := by
  constructor
  · intro h
    unfold predClasses
    rw [findSpecKeys_eq_nil ms.output _ h]
  · intro pre k t rest v hout hpre ht hv hkeys
    obtain ⟨ks, hks⟩ := findSpecKeys_append_first pre k t rest _ hpre ht
    unfold predClasses
    rw [hout, hks]
    simp [specGet_append_first pre k t rest hkeys, hv]

/-! ### Replace-not-merge (claim C5) -/

/-- C5: on normal completion the persisted Score Map is replaced, not
merged: the single assignment makes it exactly the working map of the run
(computed from the environment and the selections alone, never read from the
previous map), so a key of the previous map that did not qualify in this run
is absent afterwards. -/
theorem runTCAV_replaces (env : Env) (st : TCAVState) (w : List (String × Rat))
    (h : runTCAVScores env st.selectedSlice st.selectedClass st.selectedLayer = some w) :
    (runTCAV env st).scores = w ∧
    ∀ s, (∃ v, (s, v) ∈ st.scores) → (∀ v, (s, v) ∉ w) →
      mapLookup (runTCAV env st).scores s = none := by
  have hs : (runTCAV env st).scores = w := by
    unfold runTCAV
    rw [h]
  exact ⟨hs, fun s _ hnot => by rw [hs]; exact mapLookup_eq_none w s hnot⟩

/-! ### The run loop: justification, abort and recording lemmas -/

/-- Every entry the run loop adds to the working map is justified: the slice
was a candidate, resolved with enough examples, and its non-stale result
passed the significance filter with exactly that score. -/
theorem runLoop_justified (env : Env) (cls lyr : String) (cands0 : List String) :
    ∀ cands working w, (∀ s ∈ cands, s ∈ cands0) →
      (∀ s v, (s, v) ∈ working → entryJustified env cls lyr cands0 s v) →
      runLoop env cls lyr working cands = some w →
      ∀ s v, (s, v) ∈ w → entryJustified env cls lyr cands0 s v := by
  intro cands
  induction cands with
  | nil =>
    intro working w _ hW hrun
    simp only [runLoop] at hrun
    injection hrun with h1
    subst h1
    exact hW
  | cons c rest ih =>
    intro working w hsub hW hrun
    simp only [runLoop] at hrun
    cases hc : env.getSliceByName c with
    | none =>
      simp only [hc] at hrun
      exact ih working w (fun s hs => hsub s (List.mem_cons_of_mem _ hs)) hW hrun
    | some cIds =>
      simp only [hc] at hrun
      by_cases hclen : cIds.length < MIN_EXAMPLES_LENGTH
      · rw [if_pos hclen] at hrun
        exact ih working w (fun s hs => hsub s (List.mem_cons_of_mem _ hs)) hW hrun
      · rw [if_neg hclen] at hrun
        cases hcres : env.response cIds cls lyr with
        | none =>
          simp only [hcres] at hrun
          exact Option.noConfusion hrun
        | some res =>
          simp only [hcres] at hrun
          by_cases hp : res.1.p_val < pValThreshold
          · rw [if_pos hp] at hrun
            refine ih _ w (fun s hs => hsub s (List.mem_cons_of_mem _ hs)) ?_ hrun
            intro s v hmem
            rcases mem_mapSet working c s v res.1.score hmem with ⟨hs, hv⟩ | hold
            · rw [hs, hv]
              exact ⟨hsub c (List.mem_cons_self _ _), cIds, res.1, res.2, hc,
                Nat.le_of_not_lt hclen, by rw [Prod.mk.eta]; exact hcres, hp, rfl⟩
            · exact hW s v hold
          · rw [if_neg hp] at hrun
            exact ih working w (fun s hs => hsub s (List.mem_cons_of_mem _ hs)) hW hrun

/-- Every entry of a normally-completed run's working map is justified by
that run. -/
theorem runTCAVScores_justified (env : Env) (sel cls lyr : String)
    (w : List (String × Rat)) (h : runTCAVScores env sel cls lyr = some w) :
    ∀ s v, (s, v) ∈ w → entryJustified env cls lyr (candidateSlices sel env) s v :=
  runLoop_justified env cls lyr (candidateSlices sel env)
    (candidateSlices sel env) [] w (fun _ hs => hs)
    (fun _ _ hm => absurd hm (List.not_mem_nil _)) h

/-- If a candidate slice resolves, meets the size threshold and its request
returns the staleness sentinel, the whole loop aborts. -/
theorem runLoop_abort (env : Env) (cls lyr s : String) (ids : List String)
    (hids : env.getSliceByName s = some ids)
    (hlen : MIN_EXAMPLES_LENGTH ≤ ids.length)
    (hres : env.response ids cls lyr = none) :
    ∀ cands working, s ∈ cands → runLoop env cls lyr working cands = none := by
  intro cands
  induction cands with
  | nil =>
    intro working hmem
    exact absurd hmem (List.not_mem_nil _)
  | cons c rest ih =>
    intro working hmem
    by_cases hcs : c = s
    · subst hcs
      simp only [runLoop, hids, if_neg (Nat.not_lt.mpr hlen), hres]
    · have hs : s ∈ rest := by
        rcases List.mem_cons.mp hmem with h1 | h2
        · exact absurd h1.symm hcs
        · exact h2
      cases hc : env.getSliceByName c with
      | none =>
        simp only [runLoop, hc]
        exact ih working hs
      | some cIds =>
        simp only [runLoop, hc]
        by_cases hclen : cIds.length < MIN_EXAMPLES_LENGTH
        · rw [if_pos hclen]
          exact ih working hs
        · rw [if_neg hclen]
          cases hcres : env.response cIds cls lyr with
          | none => simp only [hcres]
          | some res =>
            simp only [hcres]
            by_cases hp : res.1.p_val < pValThreshold
            · rw [if_pos hp]
              exact ih _ hs
            · rw [if_neg hp]
              exact ih working hs

/-- Once the working map records `e.score` for slice `s`, the rest of the
loop keeps it there: any later processing of `s` writes the same score
again (the environment is a function of the request). -/
theorem runLoop_lookup_stable (env : Env) (cls lyr s : String) (ids : List String)
    (e : TCAVResultEntry) (tail : List TCAVResultEntry)
    (hids : env.getSliceByName s = some ids)
    (hres : env.response ids cls lyr = some (e, tail)) :
    ∀ cands working w, runLoop env cls lyr working cands = some w →
      mapLookup working s = some e.score → mapLookup w s = some e.score := by
  intro cands
  induction cands with
  | nil =>
    intro working w hrun hl
    simp only [runLoop] at hrun
    injection hrun with h1
    subst h1
    exact hl
  | cons c rest ih =>
    intro working w hrun hl
    simp only [runLoop] at hrun
    cases hc : env.getSliceByName c with
    | none =>
      simp only [hc] at hrun
      exact ih working w hrun hl
    | some cIds =>
      simp only [hc] at hrun
      by_cases hclen : cIds.length < MIN_EXAMPLES_LENGTH
      · rw [if_pos hclen] at hrun
        exact ih working w hrun hl
      · rw [if_neg hclen] at hrun
        cases hcres : env.response cIds cls lyr with
        | none =>
          simp only [hcres] at hrun
          exact Option.noConfusion hrun
        | some res =>
          simp only [hcres] at hrun
          by_cases hp : res.1.p_val < pValThreshold
          · rw [if_pos hp] at hrun
            by_cases hcs : c = s
            · subst hcs
              rw [hids] at hc
              injection hc with hid
              subst hid
              rw [hres] at hcres
              injection hcres with hr
              subst hr
              exact ih _ w hrun (by rw [mapLookup_mapSet_self])
            · refine ih _ w hrun ?_
              rw [mapLookup_mapSet_ne working c s res.1.score (Ne.symm hcs)]
              exact hl
          · rw [if_neg hp] at hrun
            exact ih working w hrun hl

/-- If candidate `s` resolves with enough examples and its non-stale result
passes the significance filter, a completed loop run ends with `s` mapped to
the first entry's score. -/
theorem runLoop_records (env : Env) (cls lyr s : String) (ids : List String)
    (e : TCAVResultEntry) (tail : List TCAVResultEntry)
    (hids : env.getSliceByName s = some ids)
    (hlen : MIN_EXAMPLES_LENGTH ≤ ids.length)
    (hres : env.response ids cls lyr = some (e, tail))
    (hp : e.p_val < pValThreshold) :
    ∀ cands working w, s ∈ cands →
      runLoop env cls lyr working cands = some w →
      mapLookup w s = some e.score := by
  intro cands
  induction cands with
  | nil =>
    intro working w hmem
    exact absurd hmem (List.not_mem_nil _)
  | cons c rest ih =>
    intro working w hmem hrun
    simp only [runLoop] at hrun
    by_cases hcs : c = s
    · subst hcs
      simp only [hids] at hrun
      rw [if_neg (Nat.not_lt.mpr hlen)] at hrun
      simp only [hres] at hrun
      rw [if_pos hp] at hrun
      exact runLoop_lookup_stable env cls lyr c ids e tail hids hres rest _ w hrun
        (by rw [mapLookup_mapSet_self])
    · have hs : s ∈ rest := by
        rcases List.mem_cons.mp hmem with h1 | h2
        · exact absurd h1.symm hcs
        · exact h2
      cases hc : env.getSliceByName c with
      | none =>
        simp only [hc] at hrun
        exact ih working w hs hrun
      | some cIds =>
        simp only [hc] at hrun
        by_cases hclen : cIds.length < MIN_EXAMPLES_LENGTH
        · rw [if_pos hclen] at hrun
          exact ih working w hs hrun
        · rw [if_neg hclen] at hrun
          cases hcres : env.response cIds cls lyr with
          | none =>
            simp only [hcres] at hrun
            exact Option.noConfusion hrun
          | some res =>
            simp only [hcres] at hrun
            by_cases hpc : res.1.p_val < pValThreshold
            · rw [if_pos hpc] at hrun
              exact ih _ w hs hrun
            · rw [if_neg hpc] at hrun
              exact ih working w hs hrun

/-! ### Significance filter (claim C3) and staleness abort (claim C4) -/

/-- C3: during a run, for every candidate slice that resolves with enough
examples and whose interpretation request settles non-stale, the completed
working map records the slice's name with the first result entry's score if
and only if that entry's significance (`p_val`) is strictly below the
threshold; a result at or above the threshold leaves no entry (it is
discarded silently). -/
theorem runTCAV_significance_filter (env : Env) (sel cls lyr s : String)
    (ids : List String) (e : TCAVResultEntry) (tail : List TCAVResultEntry)
    (w : List (String × Rat))
    (hmem : s ∈ candidateSlices sel env)
    (hids : env.getSliceByName s = some ids)
    (hlen : MIN_EXAMPLES_LENGTH ≤ ids.length)
    (hres : env.response ids cls lyr = some (e, tail))
    (hrun : runTCAVScores env sel cls lyr = some w) :
    (e.p_val < pValThreshold → mapLookup w s = some e.score) ∧
    (pValThreshold ≤ e.p_val → mapLookup w s = none) := by
  constructor
  · intro hp
    exact runLoop_records env cls lyr s ids e tail hids hlen hres hp
      (candidateSlices sel env) [] w hmem hrun
  · intro hp
    apply mapLookup_eq_none
    intro v hv
    obtain ⟨-, ids', e', tail', hids', hlen', hres', hp', hv'⟩ :=
      runTCAVScores_justified env sel cls lyr w hrun s v hv
    rw [hids] at hids'
    injection hids' with h1
    subst h1
    rw [hres] at hres'
    injection hres' with h2
    injection h2 with h3 h4
    subst h3
    exact absurd hp' (not_lt.mpr hp)

/-- C4: if any candidate slice that resolves with enough examples gets the
staleness sentinel back, the whole run aborts atomically: the settled state
has the loading flag false and is otherwise identical to the state before
the run -- in particular the persisted Score Map is completely unchanged, with
no partial entries. -/
theorem runTCAV_staleness_abort (env : Env) (st : TCAVState) (s : String)
    (ids : List String)
    (hmem : s ∈ candidateSlices st.selectedSlice env)
    (hids : env.getSliceByName s = some ids)
    (hlen : MIN_EXAMPLES_LENGTH ≤ ids.length)
    (hres : env.response ids st.selectedClass st.selectedLayer = none) :
    runTCAV env st = { st with isLoading := false } := by
  unfold runTCAV runTCAVScores
  rw [runLoop_abort env st.selectedClass st.selectedLayer s ids hids hlen hres
    (candidateSlices st.selectedSlice env) [] hmem]

/-! ### Score-map invariant over the controller's lifetime (claim C6) -/

theorem applyLayerDefault_frame (ms : ModelSpec) (st : TCAVState) :
    (applyLayerDefault ms st).scores = st.scores ∧
    (applyLayerDefault ms st).selectedSlice = st.selectedSlice ∧
    (applyLayerDefault ms st).selectedClass = st.selectedClass ∧
    (applyLayerDefault ms st).isLoading = st.isLoading := by
  unfold applyLayerDefault
  split <;> exact ⟨rfl, rfl, rfl, rfl⟩

theorem applyClassDefault_frame (ms : ModelSpec) (st st' : TCAVState)
    (h : applyClassDefault ms st = some st') :
    st'.scores = st.scores ∧ st'.selectedSlice = st.selectedSlice ∧
    st'.selectedLayer = st.selectedLayer ∧ st'.isLoading = st.isLoading := by
  unfold applyClassDefault at h
  split at h
  · split at h
    · exact Option.noConfusion h
    · split at h <;> (injection h with h1; subst h1; exact ⟨rfl, rfl, rfl, rfl⟩)
  · injection h with h1
    subst h1
    exact ⟨rfl, rfl, rfl, rfl⟩

/-- The first-render initialization touches only the two selections it may
default: scores, selected slice and loading flag pass through unchanged. -/
theorem firstUpdated_frame (ms : ModelSpec) (st st' : TCAVState)
    (h : firstUpdated ms st = some st') :
    st'.scores = st.scores ∧ st'.selectedSlice = st.selectedSlice ∧
    st'.isLoading = st.isLoading := by
  unfold firstUpdated at h
  obtain ⟨h1, h2, _, h4⟩ := applyClassDefault_frame ms (applyLayerDefault ms st) st' h
  obtain ⟨g1, g2, _, g4⟩ := applyLayerDefault_frame ms st
  exact ⟨h1.trans g1, h2.trans g2, h4.trans g4⟩

/-- On a staleness abort the persisted map passes through `runTCAV`
untouched. -/
theorem runTCAV_scores_abort (env : Env) (st : TCAVState)
    (h : runTCAVScores env st.selectedSlice st.selectedClass st.selectedLayer = none) :
    (runTCAV env st).scores = st.scores := by
  unfold runTCAV
  rw [h]

/-- On normal completion `runTCAV` persists exactly the run's working map. -/
theorem runTCAV_scores_complete (env : Env) (st : TCAVState) (w : List (String × Rat))
    (h : runTCAVScores env st.selectedSlice st.selectedClass st.selectedLayer = some w) :
    (runTCAV env st).scores = w := by
  unfold runTCAV
  rw [h]

/-- Where the score map of a settled trace comes from: either no run in the
trace ever completed a map (the map passed through every action unchanged
from the start state), or the map is the output of an actual `.run` action
of the trace, applied to the state its prefix reached. -/
theorem runActions_scores_origin (acts : List UIAction) :
    ∀ st0 stEnd, runActions st0 acts = some stEnd →
      stEnd.scores = st0.scores ∨ mapProducedByRun st0 acts stEnd.scores := by
  induction acts with
  | nil =>
    intro st0 stEnd h
    simp only [runActions] at h
    injection h with h1
    subst h1
    exact Or.inl rfl
  | cons a rest ih =>
    intro st0 stEnd h
    simp only [runActions] at h
    cases hs : stepAction st0 a with
    | none =>
      simp only [hs] at h
      exact Option.noConfusion h
    | some st1 =>
      simp only [hs] at h
      rcases ih st1 stEnd h with hsc | ⟨pre, env, stRun, post, hdec, hpre, hw, hj⟩
      · cases a with
        | run env =>
          simp only [stepAction] at hs
          injection hs with hs1
          cases hw0 : runTCAVScores env st0.selectedSlice st0.selectedClass
              st0.selectedLayer with
          | none =>
            left
            rw [hsc, ← hs1, runTCAV_scores_abort env st0 hw0]
          | some w =>
            right
            have hscw : stEnd.scores = w := by
              rw [hsc, ← hs1, runTCAV_scores_complete env st0 w hw0]
            refine ⟨[], env, st0, rest, rfl, rfl, ?_, ?_⟩
            · rw [hscw]
              exact hw0
            · intro s v hv
              rw [hscw] at hv
              exact runTCAVScores_justified env st0.selectedSlice st0.selectedClass
                st0.selectedLayer w hw0 s v hv
        | setSlice s =>
          simp only [stepAction] at hs
          injection hs with hs1
          left
          rw [hsc, ← hs1]
        | setLayer s =>
          simp only [stepAction] at hs
          injection hs with hs1
          left
          rw [hsc, ← hs1]
        | setClass s =>
          simp only [stepAction] at hs
          injection hs with hs1
          left
          rw [hsc, ← hs1]
        | firstRender ms =>
          simp only [stepAction] at hs
          left
          rw [hsc]
          exact (firstUpdated_frame ms st0 st1 hs).1
      · right
        refine ⟨a :: pre, env, stRun, post, by rw [hdec, List.cons_append], ?_, hw, hj⟩
        simp only [runActions, hs]
        exact hpre

/-- C6: at every reachable point of the controller's lifetime the Score Map
is either still the initial empty map or the output of the run of the trace
that produced it, and then it contains entries only for slices that (a) were
in that run's candidate list, resolved and met the size threshold
(unresolvable or undersized candidates are skipped with no error and leave
no entry), and (b) yielded a non-stale result passing the significance
filter; every operation preserves this, including runs that skip every
candidate (they complete with the empty map) and aborted runs (the previous
run's map survives unchanged). -/
theorem scoreMap_invariant (acts : List UIAction) (stEnd : TCAVState)
    (h : runActions initialState acts = some stEnd) :
    stEnd.scores = [] ∨ mapProducedByRun initialState acts stEnd.scores := by
  rcases runActions_scores_origin acts initialState stEnd h with h1 | h2
  · exact Or.inl h1
  · exact Or.inr h2

/-! ### First-render defaults (claim C7) -/

theorem renderSteps_id (n : Nat) (st : TCAVState) : renderSteps n st = st := by
  induction n with
  | zero => rfl
  | succ n ih => exact ih

/-- C7: on first render, if no layer is selected and the model has at least
one gradient layer, the first gradient layer becomes the selected layer, and
symmetrically the first predictable class becomes the selected class when no
class is selected; a non-empty existing selection is never overwritten, the
default is applied once, and any number of later renders leaves the state
untouched. -/
theorem firstUpdated_defaults (ms : ModelSpec) (st : TCAVState) (n : Nat)
    (g : String) (gs : List String) (c : String) (cs : List String)
    (hg : gradKeys ms = g :: gs) (hc : predClasses ms = some (c :: cs)) :
    ∃ st', lifecycleAfterRenders ms st n = some st' ∧
      st'.selectedLayer = (if st.selectedLayer = "" then g else st.selectedLayer) ∧
      st'.selectedClass = (if st.selectedClass = "" then c else st.selectedClass) ∧
      st'.selectedSlice = st.selectedSlice ∧
      st'.scores = st.scores ∧ st'.isLoading = st.isLoading := by
  have hst1 : applyLayerDefault ms st =
      { st with selectedLayer := if st.selectedLayer = "" then g else st.selectedLayer } := by
    unfold applyLayerDefault
    by_cases hl : st.selectedLayer = ""
    · rw [if_pos ⟨hl, by rw [hg]; simp⟩, hg]
      simp [hl]
    · rw [if_neg (fun hand => hl hand.1)]
      simp [hl]
  have hfu : firstUpdated ms st =
      some { st with
        selectedLayer := if st.selectedLayer = "" then g else st.selectedLayer,
        selectedClass := if st.selectedClass = "" then c else st.selectedClass } := by
    unfold firstUpdated applyClassDefault
    rw [hst1, hc]
    by_cases hcl : st.selectedClass = "" <;> simp [hcl]
  refine ⟨{ st with
      selectedLayer := if st.selectedLayer = "" then g else st.selectedLayer,
      selectedClass := if st.selectedClass = "" then c else st.selectedClass },
    ?_, rfl, rfl, rfl, rfl, rfl⟩
  unfold lifecycleAfterRenders
  rw [hfu]
  simp [renderSteps_id]

/-! ### Concrete environments and witnesses -/

theorem pValThreshold_eq_half : pValThreshold = 1 / 2 := by
  norm_num [pValThreshold]

/-- A demonstration response entry: significance 1/10 (passing), score 7/10. -/
def demoEntry : TCAVResultEntry := { p_val := mkRat 1 10, score := mkRat 7 10 }

/-- A slice service with one resolvable slice "A" of two examples whose
request settles with `demoEntry`. -/
def demoEnv : Env where
  sliceNames := ["A"]
  getSliceByName := fun s => if s = "A" then some ["i1", "i2"] else none
  response := fun _ _ _ => some (demoEntry, [])

/-- A second run's environment: one qualifying slice "Y", disjoint from a
previous run's "X". -/
def demoEnvY : Env where
  sliceNames := ["Y"]
  getSliceByName := fun s => if s = "Y" then some ["j1", "j2"] else none
  response := fun _ _ _ => some (demoEntry, [])

/-- A slice service whose only slice resolves with two examples but whose
request returns the staleness sentinel. -/
def staleEnv : Env where
  sliceNames := ["A"]
  getSliceByName := fun s => if s = "A" then some ["i1", "i2"] else none
  response := fun _ _ _ => none

/-- Witness for C3 at a concrete run: slice "A" of `demoEnv` passes the
significance filter and its score is recorded. -/
theorem runTCAV_significance_filter_witness :
    mapLookup [("A", demoEntry.score)] "A" = some demoEntry.score :=
  (runTCAV_significance_filter demoEnv ALL "" "" "A" ["i1", "i2"] demoEntry []
    [("A", demoEntry.score)] (by decide) (by decide) (by decide) (by decide)
    (by decide)).1 (by decide)

/-- Witness for C4 at a concrete run: the stale request of `staleEnv` aborts
the run and leaves the initial state with the loading flag cleared. -/
theorem runTCAV_staleness_abort_witness :
    runTCAV staleEnv initialState = { initialState with isLoading := false } :=
  runTCAV_staleness_abort staleEnv initialState "A" ["i1", "i2"]
    (by decide) (by decide) (by decide) (by decide)

/-- Witness for C5 at a concrete pair of runs: after a completed run over
slice "Y", a previous map entry for "X" is gone and only "Y" remains. -/
theorem runTCAV_replaces_witness :
    (runTCAV demoEnvY { initialState with scores := [("X", 1)] }).scores =
      [("Y", demoEntry.score)] :=
  (runTCAV_replaces demoEnvY { initialState with scores := [("X", 1)] }
    [("Y", demoEntry.score)] (by decide)).1

/-- Witness for C6 at a concrete lifetime: after the single run of
`demoEnv` from the initial state, the score map is empty or produced by a
run of that very trace. -/
theorem scoreMap_invariant_witness :
    (runTCAV demoEnv initialState).scores = [] ∨
    mapProducedByRun initialState [UIAction.run demoEnv]
      (runTCAV demoEnv initialState).scores :=
  scoreMap_invariant [UIAction.run demoEnv] (runTCAV demoEnv initialState) rfl

/-- A model spec with two gradient layers and a prediction head with
vocabulary ["cat", "dog"]. -/
def demoModelSpec : ModelSpec :=
  { output := [("L1", { kind := "Gradients" }), ("L2", { kind := "Gradients" }),
               ("probas", { kind := "MulticlassPreds", vocab := some ["cat", "dog"] })] }

/-- Witness for C7 at a concrete first render: from the unset initial state
with `demoModelSpec`, the selected layer becomes "L1" and the selected class
"cat", and two further renders change nothing. -/
theorem firstUpdated_defaults_witness :
    ∃ st', lifecycleAfterRenders demoModelSpec initialState 2 = some st' ∧
      st'.selectedLayer = (if initialState.selectedLayer = "" then "L1"
        else initialState.selectedLayer) ∧
      st'.selectedClass = (if initialState.selectedClass = "" then "cat"
        else initialState.selectedClass) ∧
      st'.selectedSlice = initialState.selectedSlice ∧
      st'.scores = initialState.scores ∧ st'.isLoading = initialState.isLoading :=
  firstUpdated_defaults demoModelSpec initialState 2 "L1" ["L2"] "cat" ["dog"]
    (by decide) (by decide)
